import Mathlib

/-!
Verification of the DCA (Dollar-Cost-Averaging) backtest calculator
(`backtest.py`, function `calculate_dca`).

The embedding models:
* calendar dates as serial day numbers (days since 1970-01-01), with
  `daysFromCivil` converting a civil `(year, month, day)` triple to its
  serial number (proleptic Gregorian calendar);
* the pandas `date_range` frequency aliases used by the source
  (`B`, `W`, `2W`, `MS`, `QS`, `YS`) as explicit list generators;
* the price series as an ordered list of (serial date, closing price)
  pairs with rational prices (idealizing floating point);
* `reindex(..., method='bfill')` followed by `dropna()` as
  `bfillLookup` / `alignDates`;
* the per-row and cumulative dataframe computations as `buildRecords`;
* Python's `round(x, n)` (banker's rounding) as `pyRound`;
* the whole `calculate_dca` pipeline, with the two provider responses
  (downloaded history and the recent-close re-fetch) passed in as data.
-/

namespace DCA

/-- Serial day number of the civil date `(y, m, d)` in the proleptic
Gregorian calendar, with day 0 = 1970-01-01 (standard days-from-civil
algorithm; `/` and `%` on `ℤ` are floor division / nonnegative remainder
for the positive literal divisors used here). -/
def daysFromCivil (y m d : ℤ) : ℤ :=
  let y2 : ℤ := if m ≤ 2 then y - 1 else y
  let era : ℤ := y2 / 400
  let yoe : ℤ := y2 - 400 * era
  let mp : ℤ := (m + 9) % 12
  let doy : ℤ := (153 * mp + 2) / 5 + d - 1
  let doe : ℤ := yoe * 365 + yoe / 4 - yoe / 100 + doy
  era * 146097 + doe - 719468

/-- Day of week of a serial day: 0 = Monday, …, 5 = Saturday, 6 = Sunday
(day 0 = 1970-01-01 was a Thursday, so it maps to 3). -/
def weekday (t : ℤ) : ℤ := (t + 3) % 7

/-- The first serial day on or after `s` that is a Sunday (the anchor of
the pandas `W`/`2W` offsets; Sundays are the days `≡ 3 [ZMOD 7]`). -/
def firstSundayOnOrAfter (s : ℤ) : ℤ := s + (3 - s) % 7

/-- `anchoredRange step f e` is the arithmetic progression
`f, f + step, f + 2*step, …` restricted to `≤ e` (empty when `f > e`). -/
def anchoredRange (step : ℕ) (f e : ℤ) : List ℤ :=
  if f ≤ e then (List.range ((e - f).toNat / step + 1)).map (fun j : ℕ => f + step * j)
  else []

/-- pandas `date_range(start, end, freq='B')`: every business day
(Monday–Friday) in `[s, e]`. -/
def dateRangeB (s e : ℤ) : List ℤ :=
  (anchoredRange 1 s e).filter (fun t => weekday t ≤ 4)

/-- pandas `date_range(start, end, freq='W')` (= `W-SUN`): every Sunday
in `[s, e]`. -/
def dateRangeW (s e : ℤ) : List ℤ :=
  anchoredRange 7 (firstSundayOnOrAfter s) e

/-- pandas `date_range(start, end, freq='2W')` (= `2W-SUN`): every second
Sunday in `[s, e]`, anchored at the first Sunday on or after `s`. -/
def dateRange2W (s e : ℤ) : List ℤ :=
  anchoredRange 14 (firstSundayOnOrAfter s) e

/-- Serial day of the first day of month index `i` (month indices count
months since 0000-01, i.e. index `12*y + (m-1)` is month `m` of year `y`). -/
def monthStart (i : ℤ) : ℤ := daysFromCivil (i / 12) (i % 12 + 1) 1

/-- Number of days in month `m` of year `y`, expressed through the
serial-day map. -/
def daysInMonth (y m : ℤ) : ℤ :=
  monthStart (12 * y + m) - monthStart (12 * y + (m - 1))

/-- Index of the first month whose first day is on or after civil date
`(y, m, d)`. -/
def startMonthIdx (y m d : ℤ) : ℤ :=
  if d ≤ 1 then 12 * y + (m - 1) else 12 * y + m

/-- Index of the first quarter-start month (Jan/Apr/Jul/Oct) whose first
day is on or after civil date `(y, m, d)`. -/
def startQuarterIdx (y m d : ℤ) : ℤ :=
  let q : ℤ := 3 * ((m - 1) / 3)
  if m = q + 1 ∧ d ≤ 1 then 12 * y + q else 12 * y + q + 3

/-- Index of the first year-start month (January) whose first day is on
or after civil date `(y, m, d)`. -/
def startYearIdx (y m d : ℤ) : ℤ :=
  if m ≤ 1 ∧ d ≤ 1 then 12 * y else 12 * (y + 1)

/-- Month indices `i0, i0 + step, …` whose month-start serial day is
`≤ e` (every month has at least 28 days, so the generation bound is
sufficient and the trailing filter cuts the list at `e`). -/
def monthIdxRange (step : ℕ) (i0 e : ℤ) : List ℤ :=
  if monthStart i0 ≤ e then
    ((List.range ((e - monthStart i0).toNat / (28 * step) + 1)).map
        (fun j : ℕ => i0 + step * j)).filter (fun i => monthStart i ≤ e)
  else []

/-- pandas `date_range(start, end, freq='MS')`: every month start in
`[start, e]`, `start` given as civil `(y, m, d)`. -/
def dateRangeMS (y m d e : ℤ) : List ℤ :=
  (monthIdxRange 1 (startMonthIdx y m d) e).map monthStart

/-- pandas `date_range(start, end, freq='QS')`: every quarter start
(1 Jan / 1 Apr / 1 Jul / 1 Oct) in `[start, e]`. -/
def dateRangeQS (y m d e : ℤ) : List ℤ :=
  (monthIdxRange 3 (startQuarterIdx y m d) e).map monthStart

/-- pandas `date_range(start, end, freq='YS')`: every year start (1 Jan)
in `[start, e]`. -/
def dateRangeYS (y m d e : ℤ) : List ℤ :=
  (monthIdxRange 12 (startYearIdx y m d) e).map monthStart

/-- The frequency table of `calculate_dca` (`freq_map` in the source),
mapping the user-facing frequency names to pandas offset aliases. -/
def freq_map : List (String × String) :=
  [("daily", "B"), ("weekly", "W"), ("bi-weekly", "2W"),
   ("monthly", "MS"), ("quarterly", "QS"), ("yearly", "YS")]

/-- `pd.date_range(start=start_date, end=end_date, freq=al)` for the six
offset aliases appearing in `freq_map`; `start_date` is the civil triple
`(y, m, d)` and `end_date` the serial day `e`. -/
def date_range (al : String) (y m d e : ℤ) : List ℤ :=
  if al = "B" then dateRangeB (daysFromCivil y m d) e
  else if al = "W" then dateRangeW (daysFromCivil y m d) e
  else if al = "2W" then dateRange2W (daysFromCivil y m d) e
  else if al = "MS" then dateRangeMS y m d e
  else if al = "QS" then dateRangeQS y m d e
  else dateRangeYS y m d e

/-- `series.reindex([t], method='bfill')` for a single label `t` over a
price series sorted ascending by date: the value at the first entry whose
date is `≥ t`, or `none` (NaN) when every entry is earlier than `t`. -/
def bfillLookup (series : List (ℤ × ℚ)) (t : ℤ) : Option ℚ :=
  match series with
  | [] => none
  | (dt, p) :: rest => if t ≤ dt then some p else bfillLookup rest t

/-- `data['Close'].reindex(ideal_dates, method='bfill').dropna()`: each
ideal date paired with its backfilled closing price, dates with no data
at-or-after them dropped. -/
def alignDates (series : List (ℤ × ℚ)) (dates : List ℤ) : List (ℤ × ℚ) :=
  dates.filterMap (fun t => (bfillLookup series t).map (fun p => (t, p)))

/-- One row of the transaction log `df_dca`. -/
structure PurchaseRecord where
  date : ℤ
  price : ℚ
  invested : ℚ
  shares : ℚ
  totalShares : ℚ
  totalInvested : ℚ
  deriving Repr, DecidableEq

/-- The columns of `df_dca`: `Invested = amount`,
`Shares_Purchased = Invested / Price`, and the running `cumsum` columns
`Total_Shares` and `Total_Invested` (accumulators passed explicitly). -/
def buildRecords (amount : ℚ) : List (ℤ × ℚ) → ℚ → ℚ → List PurchaseRecord
  | [], _, _ => []
  | (t, p) :: rest, accShares, accInvested =>
    let shares := amount / p
    { date := t, price := p, invested := amount, shares := shares,
      totalShares := accShares + shares,
      totalInvested := accInvested + amount } ::
      buildRecords amount rest (accShares + shares) (accInvested + amount)

/-- Round-half-to-even to an integer (the rounding mode of Python's
built-in `round`). -/
def roundHalfEven (q : ℚ) : ℤ :=
  let f : ℤ := Rat.floor q
  if q - f < 1 / 2 then f
  else if 1 / 2 < q - f then f + 1
  else if f % 2 = 0 then f else f + 1

/-- Python's `round(x, n)` on the rational idealization of floats. -/
def pyRound (x : ℚ) (n : ℕ) : ℚ := (roundHalfEven (x * 10 ^ n) : ℚ) / 10 ^ n

/-- The summary dict returned by `calculate_dca` (numeric fields only;
the ROI is stored as the rounded percentage that the source formats into
its string). -/
structure Summary where
  ticker : String
  frequency : String
  totalInvested : ℚ
  totalShares : ℚ
  avgCostBasis : ℚ
  currentPrice : ℚ
  portfolioValue : ℚ
  profitLoss : ℚ
  roi : ℚ
  deriving Repr, DecidableEq

/-- The failure modes of `calculate_dca`: the `ValueError` raised for an
unknown frequency, the error dict returned when the download raises, and
the error dict returned when the downloaded series is empty. -/
inductive DCAError
  | invalidFrequency
  | downloadFailed
  | noData
  deriving Repr, DecidableEq

/-- Steps 3–5 of the source: generate the ideal dates, align them to
trading days by backward fill, and build the transaction log with its
cumulative columns. -/
def recordsOf (amount : ℚ) (al : String) (sy sm sd endDate : ℤ)
    (data : List (ℤ × ℚ)) : List PurchaseRecord :=
  buildRecords amount (alignDates data (date_range al sy sm sd endDate)) 0 0

/-- The current market price: the last close of the 5-day re-fetch when
that history is non-empty, otherwise the last row of the downloaded
history. -/
def currentPriceOf (data : List (ℤ × ℚ)) (recentClose : Option ℚ) : ℚ :=
  match recentClose with
  | some p => p
  | none => ((data.getLast?).getD (0, 0)).2

/-- Step 6 of the source: the summary dict computed from the transaction
log and the current price, with Python rounding applied to each reported
number and the guarded forms of `avg_cost_basis` and `roi`. -/
def summaryOf (ticker frequency : String) (records : List PurchaseRecord)
    (current_price : ℚ) : Summary :=
  let total_invested := (records.map (fun r => r.invested)).sum
  let total_shares := (records.map (fun r => r.shares)).sum
  let portfolio_value := total_shares * current_price
  let profit_loss := portfolio_value - total_invested
  let roi := if 0 < total_invested then profit_loss / total_invested * 100 else 0
  { ticker := ticker, frequency := frequency,
    totalInvested := pyRound total_invested 2,
    totalShares := pyRound total_shares 4,
    avgCostBasis :=
      if 0 < total_shares then pyRound (total_invested / total_shares) 2 else 0,
    currentPrice := pyRound current_price 2,
    portfolioValue := pyRound portfolio_value 2,
    profitLoss := pyRound profit_loss 2,
    roi := pyRound roi 2 }

/-- The full `calculate_dca` pipeline. The provider interactions are
passed in as data: `download` is the result of
`yf.download(ticker, start=start_date)` (`none` when the call raises,
otherwise the daily close series, sorted ascending by date), and
`recentClose` is the last close of the 5-day re-fetch used for the
current market price (`none` when that history is empty, in which case
the source falls back to the last row of the downloaded history).
`(sy, sm, sd)` is the parsed `start_date` and `endDate` the serial day of
`datetime.now()`. -/
def calculate_dca (ticker : String) (amount : ℚ) (frequency : String)
    (sy sm sd : ℤ) (endDate : ℤ)
    (download : Option (List (ℤ × ℚ))) (recentClose : Option ℚ) :
    Except DCAError (Summary × List PurchaseRecord) :=
  match freq_map.lookup frequency with
  | none => .error .invalidFrequency
  | some al =>
    match download with
    | none => .error .downloadFailed
    | some data =>
      match data with
      | [] => .error .noData
      | _ :: _ =>
        let records := recordsOf amount al sy sm sd endDate data
        .ok (summaryOf ticker frequency records (currentPriceOf data recentClose),
          records)

/-! ### Calendar arithmetic -/

theorem monthStart_succ_bounds (i : ℤ) :
    monthStart i + 28 ≤ monthStart (i + 1) ∧ monthStart (i + 1) ≤ monthStart i + 31 := by
  obtain ⟨q, r, hi, hr0, hr1⟩ : ∃ q r, i = 12 * q + r ∧ 0 ≤ r ∧ r < 12 :=
    ⟨i / 12, i % 12, by omega, by omega, by omega⟩
  subst hi
  simp only [monthStart, daysFromCivil]
  interval_cases r <;> split_ifs <;> omega

theorem monthStart_mono {i j : ℤ} (h : i ≤ j) : monthStart i ≤ monthStart j := by
  have key : ∀ n : ℕ, monthStart i ≤ monthStart (i + n) := by
    intro n
    induction n with
    | zero => simp
    | succ n ih =>
      have h2 := (monthStart_succ_bounds (i + n)).1
      have he : (i + ((n : ℕ) + 1 : ℕ) : ℤ) = (i + n) + 1 := by push_cast; ring
      rw [he]
      omega
  obtain ⟨n, hn⟩ : ∃ n : ℕ, j = i + n := ⟨(j - i).toNat, by omega⟩
  rw [hn]
  exact key n

theorem monthStart_lt_of_lt {i j : ℤ} (h : i < j) : monthStart i < monthStart j := by
  have h1 := monthStart_mono (by omega : i + 1 ≤ j)
  have h2 := (monthStart_succ_bounds i).1
  omega

theorem monthStart_ofCivil (y m : ℤ) (h1 : 1 ≤ m) (h2 : m ≤ 12) :
    monthStart (12 * y + (m - 1)) = daysFromCivil y m 1 := by
  have hd : (12 * y + (m - 1)) / 12 = y := by omega
  have hm : (12 * y + (m - 1)) % 12 = m - 1 := by omega
  rw [monthStart, hd, hm, sub_add_cancel]

theorem daysFromCivil_day (y m d : ℤ) :
    daysFromCivil y m d = daysFromCivil y m 1 + (d - 1) := by
  simp only [daysFromCivil]
  split_ifs <;> ring

theorem daysInMonth_bounds (y m : ℤ) : 28 ≤ daysInMonth y m ∧ daysInMonth y m ≤ 31 := by
  have h := monthStart_succ_bounds (12 * y + (m - 1))
  have he : 12 * y + (m - 1) + 1 = 12 * y + m := by ring
  rw [he] at h
  rw [daysInMonth]
  omega

theorem startMonthIdx_ge (y m d : ℤ) (h1 : 1 ≤ m) (h2 : m ≤ 12) (hd1 : 1 ≤ d)
    (hd2 : d ≤ daysInMonth y m) :
    daysFromCivil y m d ≤ monthStart (startMonthIdx y m d) ∧
      (1 < d → daysFromCivil y m d < monthStart (startMonthIdx y m d)) := by
  have e1 : monthStart (12 * y + (m - 1)) = daysFromCivil y m 1 :=
    monthStart_ofCivil y m h1 h2
  have e2 : daysInMonth y m = monthStart (12 * y + m) - monthStart (12 * y + (m - 1)) := rfl
  rw [daysFromCivil_day, startMonthIdx]
  split_ifs with h <;> omega

theorem startQuarterIdx_ge_monthIdx (y m d : ℤ) :
    startMonthIdx y m d ≤ startQuarterIdx y m d := by
  simp only [startMonthIdx, startQuarterIdx]
  split_ifs <;> omega

theorem startYearIdx_ge_monthIdx (y m d : ℤ) (h2 : m ≤ 12) :
    startMonthIdx y m d ≤ startYearIdx y m d := by
  simp only [startMonthIdx, startYearIdx]
  split_ifs <;> omega

theorem startQuarterIdx_dvd (y m d : ℤ) : ∃ k, startQuarterIdx y m d = 3 * k := by
  simp only [startQuarterIdx]
  split_ifs
  · exact ⟨4 * y + (m - 1) / 3, by ring⟩
  · exact ⟨4 * y + (m - 1) / 3 + 1, by ring⟩

theorem startYearIdx_dvd (y m d : ℤ) : ∃ k, startYearIdx y m d = 12 * k := by
  simp only [startYearIdx]
  split_ifs
  · exact ⟨y, rfl⟩
  · exact ⟨y + 1, rfl⟩

/-! ### Structure of the generated date ranges -/

theorem chain'_map_range {R : ℤ → ℤ → Prop} (f : ℕ → ℤ) (n : ℕ)
    (h : ∀ j, j + 1 < n → R (f j) (f (j + 1))) :
    List.Chain' R ((List.range n).map f) := by
  rw [List.chain'_iff_get]
  intro i hi
  simp only [List.length_map, List.length_range] at hi
  simp only [List.get_eq_getElem, List.getElem_map, List.getElem_range]
  exact h i (by omega)

theorem filter_map_range_prefix (f : ℕ → ℤ) (p : ℤ → Bool) (n : ℕ)
    (hdc : ∀ j : ℕ, p (f (j + 1)) = true → p (f j) = true) :
    ∃ k, k ≤ n ∧ ((List.range n).map f).filter p = (List.range k).map f := by
  induction n with
  | zero => exact ⟨0, le_refl 0, rfl⟩
  | succ n ih =>
    obtain ⟨k, hk, hfil⟩ := ih
    by_cases hp : p (f n) = true
    · refine ⟨n + 1, le_refl _, ?_⟩
      have hstep : ∀ j : ℕ, ∀ i : ℕ, p (f (j + i)) = true → p (f j) = true := by
        intro j i
        induction i with
        | zero => intro hh; simpa using hh
        | succ i ih2 =>
          intro hh
          exact ih2 (hdc (j + i) hh)
      have hall : ∀ a ∈ (List.range (n + 1)).map f, p a = true := by
        intro a ha
        simp only [List.mem_map, List.mem_range] at ha
        obtain ⟨j, hj, rfl⟩ := ha
        have hjn : j + (n - j) = n := by omega
        exact hstep j (n - j) (by rw [hjn]; exact hp)
      rw [List.filter_eq_self.mpr hall]
    · refine ⟨k, by omega, ?_⟩
      have hpf : p (f n) = false := by
        cases hb : p (f n)
        · rfl
        · exact absurd hb hp
      rw [List.range_succ, List.map_append, List.filter_append, hfil,
        List.map_cons, List.map_nil, List.filter_cons, hpf]
      simp

theorem anchoredRange_eq_of_le {step : ℕ} {f e : ℤ} (h : f ≤ e) :
    anchoredRange step f e =
      (List.range ((e - f).toNat / step + 1)).map (fun j : ℕ => f + step * j) := by
  rw [anchoredRange, if_pos h]

theorem anchoredRange_eq_nil {step : ℕ} {f e : ℤ} (h : ¬f ≤ e) :
    anchoredRange step f e = [] := by
  rw [anchoredRange, if_neg h]

theorem mem_anchoredRange {step : ℕ} (hstep : 0 < step) {f e t : ℤ}
    (ht : t ∈ anchoredRange step f e) :
    f ≤ t ∧ t ≤ e ∧ ∃ j : ℕ, t = f + step * j := by
  by_cases h : f ≤ e
  · rw [anchoredRange_eq_of_le h] at ht
    obtain ⟨j, hj, rfl⟩ := List.mem_map.mp ht
    rw [List.mem_range] at hj
    have hj2 : j * step ≤ (e - f).toNat :=
      le_trans (Nat.mul_le_mul_right step (by omega)) (Nat.div_mul_le_self _ _)
    have hj4 : ((e - f).toNat : ℤ) = e - f := Int.toNat_of_nonneg (by omega)
    have hcast : ((j * step : ℕ) : ℤ) ≤ e - f := by
      rw [← hj4]; exact_mod_cast hj2
    push_cast at hcast
    have h0 : (0 : ℤ) ≤ (step : ℤ) * (j : ℤ) := by positivity
    refine ⟨by linarith, by linarith [hcast], j, rfl⟩
  · rw [anchoredRange_eq_nil h] at ht
    simp at ht

theorem anchoredRange_chain' (step : ℕ) (f e : ℤ) :
    List.Chain' (fun a b => b = a + (step : ℤ)) (anchoredRange step f e) := by
  rw [anchoredRange]
  split_ifs with h
  · apply chain'_map_range
    intro j hj
    push_cast
    ring
  · exact List.chain'_nil

theorem anchoredRange_head {step : ℕ} {f e : ℤ} (h : f ≤ e) :
    (anchoredRange step f e).head? = some f := by
  rw [anchoredRange_eq_of_le h, List.range_succ_eq_map, List.map_cons, List.head?_cons]
  simp

theorem head?_map_range (f : ℕ → ℤ) (k : ℕ) :
    ((List.range k).map f).head? = if k = 0 then none else some (f 0) := by
  cases k with
  | zero => rfl
  | succ k =>
    rw [List.range_succ_eq_map, List.map_cons, List.head?_cons,
      if_neg (Nat.succ_ne_zero k)]

theorem mem_monthIdxRange {step : ℕ} {i0 e i : ℤ} (hi : i ∈ monthIdxRange step i0 e) :
    monthStart i ≤ e ∧ ∃ j : ℕ, i = i0 + step * j := by
  rw [monthIdxRange] at hi
  split_ifs at hi with h
  · obtain ⟨hmem, hle⟩ := List.mem_filter.mp hi
    obtain ⟨j, hj, rfl⟩ := List.mem_map.mp hmem
    exact ⟨by simpa using hle, j, rfl⟩
  · simp at hi

theorem monthIdxRange_prefix (step : ℕ) (hstep : 0 < step) (i0 e : ℤ) :
    ∃ k, monthIdxRange step i0 e = (List.range k).map (fun j : ℕ => i0 + step * j) := by
  rw [monthIdxRange]
  split_ifs with h
  · have hdc : ∀ j : ℕ,
        (fun i => decide (monthStart i ≤ e)) ((fun j : ℕ => i0 + step * j) (j + 1)) = true →
        (fun i => decide (monthStart i ≤ e)) ((fun j : ℕ => i0 + step * j) j) = true := by
      intro j hj
      rw [decide_eq_true_eq] at hj ⊢
      refine le_trans (monthStart_mono ?_) hj
      have hj1 : ((j : ℤ)) ≤ ((j : ℤ) + 1) := by omega
      have hj2 := mul_le_mul_of_nonneg_left hj1 (by positivity : (0 : ℤ) ≤ (step : ℤ))
      push_cast
      linarith
    obtain ⟨k, hk, heq⟩ :=
      filter_map_range_prefix (fun j : ℕ => i0 + step * j)
        (fun i => decide (monthStart i ≤ e))
        ((e - monthStart i0).toNat / (28 * step) + 1) hdc
    exact ⟨k, heq⟩
  · exact ⟨0, by simp⟩

theorem dateRangeMonths_structure (step : ℕ) (hstep : 0 < step) (i0 e : ℤ) :
    ∃ k, (monthIdxRange step i0 e).map monthStart =
      (List.range k).map (fun j : ℕ => monthStart (i0 + step * j)) := by
  obtain ⟨k, hk⟩ := monthIdxRange_prefix step hstep i0 e
  refine ⟨k, ?_⟩
  rw [hk, List.map_map]
  rfl

theorem sundayRange_parts (step : ℕ) (hstep : 0 < step) (hc : ∃ c : ℕ, step = 7 * c)
    (s e : ℤ) :
    (∀ t ∈ anchoredRange step (firstSundayOnOrAfter s) e, weekday t = 6 ∧ s ≤ t ∧ t ≤ e)
    ∧ ∀ h ∈ (anchoredRange step (firstSundayOnOrAfter s) e).head?,
        h = firstSundayOnOrAfter s ∧ s ≤ h ∧ h < s + 7 := by
  obtain ⟨c, rfl⟩ := hc
  constructor
  · intro t ht
    obtain ⟨hf, he, j, rfl⟩ := mem_anchoredRange hstep ht
    obtain ⟨w, hw0, hw⟩ : ∃ w : ℤ, 0 ≤ w ∧ ((7 * c : ℕ) : ℤ) * (j : ℤ) = 7 * w :=
      ⟨(c : ℤ) * j, by positivity, by push_cast; ring⟩
    rw [hw]
    rw [hw] at hf he
    unfold weekday firstSundayOnOrAfter at *
    refine ⟨by omega, by omega, he⟩
  · intro h hh
    by_cases hle : firstSundayOnOrAfter s ≤ e
    · rw [anchoredRange_head hle] at hh
      simp only [Option.mem_def, Option.some_inj] at hh
      subst hh
      unfold firstSundayOnOrAfter
      refine ⟨rfl, by omega, by omega⟩
    · rw [anchoredRange_eq_nil hle] at hh
      simp at hh

/--
**C2** (counterexample): for `start_date` 2020-01-01 (serial day 18262, a
Wednesday) and end 2020-01-31 (serial 18292), the weekly ideal calendar
contains 18266 (Sunday 2020-01-05), which is not a whole number of weeks
after the start date, and its first entry is not the start date; so the
weekly ideal dates do not run "every 7 days from start_date" and do not
share the start date's weekday.
-/
theorem C2_counterexample :
    18266 ∈ dateRangeW 18262 18292 ∧ (18266 - 18262) % 7 ≠ 0 ∧
      (dateRangeW 18262 18292).head? ≠ some 18262 := by decide

/--
**C2** (amended): the weekly ideal calendar consists of dates spaced
exactly 7 days apart and the bi-weekly calendar of dates spaced exactly
14 days apart, but both are anchored to Sundays (the pandas `W`/`2W`
anchor), not to `start_date`'s weekday: every ideal date is a Sunday in
`[start, end]`, and the first one is the first Sunday on or after
`start_date` (in particular strictly before `start_date + 7`).
-/
theorem C2_weekly_sunday_spacing (s e : ℤ) :
    (List.Chain' (fun a b => b = a + 7) (dateRangeW s e)
      ∧ (∀ t ∈ dateRangeW s e, weekday t = 6 ∧ s ≤ t ∧ t ≤ e)
      ∧ ∀ h ∈ (dateRangeW s e).head?,
          h = firstSundayOnOrAfter s ∧ s ≤ h ∧ h < s + 7)
    ∧ (List.Chain' (fun a b => b = a + 14) (dateRange2W s e)
      ∧ (∀ t ∈ dateRange2W s e, weekday t = 6 ∧ s ≤ t ∧ t ≤ e)
      ∧ ∀ h ∈ (dateRange2W s e).head?,
          h = firstSundayOnOrAfter s ∧ s ≤ h ∧ h < s + 7) := by
  have h7 := sundayRange_parts 7 (by norm_num) ⟨1, rfl⟩ s e
  have h14 := sundayRange_parts 14 (by norm_num) ⟨2, rfl⟩ s e
  have hc7 := anchoredRange_chain' 7 (firstSundayOnOrAfter s) e
  have hc14 := anchoredRange_chain' 14 (firstSundayOnOrAfter s) e
  norm_num at hc7 hc14
  exact ⟨⟨hc7, h7.1, h7.2⟩, ⟨hc14, h14.1, h14.2⟩⟩

/--
**C3**: for frequencies monthly / quarterly / yearly the ideal calendar
consists exclusively of month starts / quarter starts / year starts lying
in `[start_date, end]`; consecutive entries step by exactly one, three,
and twelve calendar months respectively; and the first entry is the start
of the month / quarter / year containing `start_date` when `start_date`
is itself that period start, and of the period following it otherwise —
in the monthly case, the first entry equals `start_date` when
`start_date` is the first of a month and is strictly later than
`start_date` otherwise.
-/
theorem C3_period_start_anchoring (y m d e : ℤ) (hm1 : 1 ≤ m) (hm2 : m ≤ 12)
    (hd1 : 1 ≤ d) (hd2 : d ≤ daysInMonth y m) :
    ((∀ t ∈ dateRangeMS y m d e,
        (∃ i, t = monthStart i) ∧ daysFromCivil y m d ≤ t ∧ t ≤ e)
      ∧ List.Chain' (fun a b => ∃ i, a = monthStart i ∧ b = monthStart (i + 1))
          (dateRangeMS y m d e)
      ∧ ∀ h ∈ (dateRangeMS y m d e).head?,
          h = monthStart (startMonthIdx y m d)
            ∧ (d = 1 → h = daysFromCivil y m d)
            ∧ (1 < d → daysFromCivil y m d < h))
    ∧ ((∀ t ∈ dateRangeQS y m d e,
        (∃ i, t = monthStart (3 * i)) ∧ daysFromCivil y m d ≤ t ∧ t ≤ e)
      ∧ List.Chain'
          (fun a b => ∃ i, a = monthStart (3 * i) ∧ b = monthStart (3 * i + 3))
          (dateRangeQS y m d e)
      ∧ ∀ h ∈ (dateRangeQS y m d e).head?, h = monthStart (startQuarterIdx y m d))
    ∧ ((∀ t ∈ dateRangeYS y m d e,
        (∃ i, t = monthStart (12 * i)) ∧ daysFromCivil y m d ≤ t ∧ t ≤ e)
      ∧ List.Chain'
          (fun a b => ∃ i, a = monthStart (12 * i) ∧ b = monthStart (12 * i + 12))
          (dateRangeYS y m d e)
      ∧ ∀ h ∈ (dateRangeYS y m d e).head?, h = monthStart (startYearIdx y m d)) := by
  have hstart := (startMonthIdx_ge y m d hm1 hm2 hd1 hd2).1
  refine ⟨⟨?_, ?_, ?_⟩, ⟨?_, ?_, ?_⟩, ⟨?_, ?_, ?_⟩⟩
  · -- monthly, membership
    intro t ht
    rw [dateRangeMS] at ht
    obtain ⟨i, hi, rfl⟩ := List.mem_map.mp ht
    obtain ⟨hle, j, rfl⟩ := mem_monthIdxRange hi
    refine ⟨⟨startMonthIdx y m d + (1 : ℕ) * (j : ℤ), rfl⟩, ?_, hle⟩
    refine le_trans hstart (monthStart_mono ?_)
    push_cast
    omega
  · -- monthly, chain
    obtain ⟨k, hk⟩ := dateRangeMonths_structure 1 (by norm_num) (startMonthIdx y m d) e
    rw [dateRangeMS, hk]
    apply chain'_map_range
    intro j hj
    refine ⟨startMonthIdx y m d + (1 : ℕ) * (j : ℤ), rfl, ?_⟩
    congr 1
    push_cast
    ring
  · -- monthly, head
    intro h hh
    obtain ⟨k, hk⟩ := dateRangeMonths_structure 1 (by norm_num) (startMonthIdx y m d) e
    rw [dateRangeMS, hk, head?_map_range] at hh
    split_ifs at hh with hk0
    · simp at hh
    · simp only [Option.mem_def, Option.some_inj] at hh
      subst hh
      have hfst : startMonthIdx y m d + ((1 : ℕ) : ℤ) * ((0 : ℕ) : ℤ) =
          startMonthIdx y m d := by push_cast; ring
      rw [hfst]
      refine ⟨rfl, ?_, ?_⟩
      · intro hd
        have hidx : startMonthIdx y m d = 12 * y + (m - 1) := by
          rw [startMonthIdx, if_pos (by omega : d ≤ 1)]
        rw [hidx, monthStart_ofCivil y m hm1 hm2, daysFromCivil_day y m d]
        omega
      · intro hd
        exact (startMonthIdx_ge y m d hm1 hm2 hd1 hd2).2 hd
  · -- quarterly, membership
    intro t ht
    rw [dateRangeQS] at ht
    obtain ⟨i, hi, rfl⟩ := List.mem_map.mp ht
    obtain ⟨hle, j, rfl⟩ := mem_monthIdxRange hi
    obtain ⟨k0, hk0⟩ := startQuarterIdx_dvd y m d
    have harg : startQuarterIdx y m d + ((3 : ℕ) : ℤ) * (j : ℤ) = 3 * (k0 + j) := by
      push_cast
      omega
    refine ⟨⟨k0 + j, by rw [harg]⟩, ?_, hle⟩
    refine le_trans hstart (le_trans
      (monthStart_mono (startQuarterIdx_ge_monthIdx y m d)) (monthStart_mono ?_))
    push_cast
    omega
  · -- quarterly, chain
    obtain ⟨k, hk⟩ := dateRangeMonths_structure 3 (by norm_num) (startQuarterIdx y m d) e
    rw [dateRangeQS, hk]
    apply chain'_map_range
    intro j hj
    obtain ⟨k0, hk0⟩ := startQuarterIdx_dvd y m d
    refine ⟨k0 + j, ?_, ?_⟩
    · congr 1
      push_cast
      omega
    · congr 1
      push_cast
      omega
  · -- quarterly, head
    intro h hh
    obtain ⟨k, hk⟩ := dateRangeMonths_structure 3 (by norm_num) (startQuarterIdx y m d) e
    rw [dateRangeQS, hk, head?_map_range] at hh
    split_ifs at hh with hk0
    · simp at hh
    · simp only [Option.mem_def, Option.some_inj] at hh
      subst hh
      congr 1
      push_cast
      ring
  · -- yearly, membership
    intro t ht
    rw [dateRangeYS] at ht
    obtain ⟨i, hi, rfl⟩ := List.mem_map.mp ht
    obtain ⟨hle, j, rfl⟩ := mem_monthIdxRange hi
    obtain ⟨k0, hk0⟩ := startYearIdx_dvd y m d
    have harg : startYearIdx y m d + ((12 : ℕ) : ℤ) * (j : ℤ) = 12 * (k0 + j) := by
      push_cast
      omega
    refine ⟨⟨k0 + j, by rw [harg]⟩, ?_, hle⟩
    refine le_trans hstart (le_trans
      (monthStart_mono (startYearIdx_ge_monthIdx y m d hm2)) (monthStart_mono ?_))
    push_cast
    omega
  · -- yearly, chain
    obtain ⟨k, hk⟩ := dateRangeMonths_structure 12 (by norm_num) (startYearIdx y m d) e
    rw [dateRangeYS, hk]
    apply chain'_map_range
    intro j hj
    obtain ⟨k0, hk0⟩ := startYearIdx_dvd y m d
    refine ⟨k0 + j, ?_, ?_⟩
    · congr 1
      push_cast
      omega
    · congr 1
      push_cast
      omega
  · -- yearly, head
    intro h hh
    obtain ⟨k, hk⟩ := dateRangeMonths_structure 12 (by norm_num) (startYearIdx y m d) e
    rw [dateRangeYS, hk, head?_map_range] at hh
    split_ifs at hh with hk0
    · simp at hh
    · simp only [Option.mem_def, Option.some_inj] at hh
      subst hh
      congr 1
      push_cast
      ring

/-! ### Backward-fill alignment -/

theorem bfillLookup_of_mem {series : List (ℤ × ℚ)}
    (hs : series.Pairwise (fun a b => a.1 < b.1)) {t : ℤ} {p : ℚ}
    (hmem : (t, p) ∈ series) : bfillLookup series t = some p := by
  induction series with
  | nil => simp at hmem
  | cons hd tl ih =>
    obtain ⟨dt, q⟩ := hd
    rcases List.mem_cons.mp hmem with heq | htl
    · injection heq with h1 h2
      subst h1; subst h2
      rw [bfillLookup, if_pos (le_refl t)]
    · have hlt : dt < t := (List.pairwise_cons.mp hs).1 (t, p) htl
      rw [bfillLookup, if_neg (by omega)]
      exact ih (List.pairwise_cons.mp hs).2 htl

theorem bfillLookup_spec {series : List (ℤ × ℚ)}
    (hs : series.Pairwise (fun a b => a.1 < b.1)) {t : ℤ} {p : ℚ}
    (h : bfillLookup series t = some p) :
    ∃ dt, (dt, p) ∈ series ∧ t ≤ dt ∧ ∀ dp ∈ series, t ≤ dp.1 → dt ≤ dp.1 := by
  induction series with
  | nil => simp [bfillLookup] at h
  | cons hd tl ih =>
    obtain ⟨dt0, q⟩ := hd
    rw [bfillLookup] at h
    split_ifs at h with hle
    · injection h with h
      subst h
      refine ⟨dt0, List.mem_cons_self _ _, hle, ?_⟩
      intro dp hdp htdp
      rcases List.mem_cons.mp hdp with heq | htl
      · rw [heq]
      · exact le_of_lt ((List.pairwise_cons.mp hs).1 dp htl)
    · obtain ⟨dt, hmem, htdt, hmin⟩ := ih (List.pairwise_cons.mp hs).2 h
      refine ⟨dt, List.mem_cons_of_mem _ hmem, htdt, ?_⟩
      intro dp hdp htdp
      rcases List.mem_cons.mp hdp with heq | htl
      · exfalso
        rw [heq] at htdp
        exact hle htdp
      · exact hmin dp htl htdp

theorem bfillLookup_none {series : List (ℤ × ℚ)} {t : ℤ}
    (h : ∀ dp ∈ series, dp.1 < t) : bfillLookup series t = none := by
  induction series with
  | nil => rfl
  | cons hd tl ih =>
    obtain ⟨dt0, q⟩ := hd
    rw [bfillLookup, if_neg (by
      have := h (dt0, q) (List.mem_cons_self _ _)
      omega)]
    exact ih fun dp hdp => h dp (List.mem_cons_of_mem _ hdp)

theorem bfillLookup_mem {series : List (ℤ × ℚ)} {t : ℤ} {p : ℚ}
    (h : bfillLookup series t = some p) : ∃ dt, (dt, p) ∈ series := by
  induction series with
  | nil => simp [bfillLookup] at h
  | cons hd tl ih =>
    obtain ⟨dt0, q⟩ := hd
    rw [bfillLookup] at h
    split_ifs at h with hle
    · injection h with h
      exact ⟨dt0, by rw [h]; exact List.mem_cons_self _ _⟩
    · obtain ⟨dt, hdt⟩ := ih h
      exact ⟨dt, List.mem_cons_of_mem _ hdt⟩

theorem mem_alignDates {series : List (ℤ × ℚ)} {dates : List ℤ} {t : ℤ} {p : ℚ} :
    (t, p) ∈ alignDates series dates ↔ t ∈ dates ∧ bfillLookup series t = some p := by
  rw [alignDates, List.mem_filterMap]
  constructor
  · rintro ⟨a, ha, heq⟩
    rcases hb : bfillLookup series a with _ | q
    · rw [hb] at heq
      simp at heq
    · rw [hb] at heq
      simp only [Option.map_some'] at heq
      injection heq with heq
      injection heq with h1 h2
      subst h1
      exact ⟨ha, by rw [hb, h2]⟩
  · rintro ⟨ht, hb⟩
    exact ⟨t, ht, by rw [hb]; rfl⟩

/--
**C1**: the alignment step (`reindex(..., method='bfill')` + `dropna`)
assigns to each ideal date the closing price at that exact date when the
date occurs in the price series; otherwise the closing price of the
nearest trading day at-or-after it (hence, when the date is absent,
strictly later); and when no trading day at-or-after the ideal date
exists in the series, the ideal date produces no aligned entry (and so no
purchase record) at all.
-/
theorem C1_backfill_alignment (series : List (ℤ × ℚ))
    (hs : series.Pairwise (fun a b => a.1 < b.1)) (dates : List ℤ) (t : ℤ) :
    (∀ p : ℚ, (t, p) ∈ series → bfillLookup series t = some p)
    ∧ (∀ p : ℚ, bfillLookup series t = some p →
        ∃ dt, (dt, p) ∈ series ∧ t ≤ dt ∧ ∀ dp ∈ series, t ≤ dp.1 → dt ≤ dp.1)
    ∧ ((∀ dp ∈ series, dp.1 < t) → bfillLookup series t = none)
    ∧ (bfillLookup series t = none → ∀ p : ℚ, (t, p) ∉ alignDates series dates)
    ∧ (t ∈ dates → ∀ p : ℚ, bfillLookup series t = some p →
        (t, p) ∈ alignDates series dates) := by
  refine ⟨fun p hp => bfillLookup_of_mem hs hp,
    fun p hp => bfillLookup_spec hs hp,
    bfillLookup_none,
    ?_, ?_⟩
  · intro hnone p hmem
    rw [mem_alignDates] at hmem
    rw [hnone] at hmem
    exact Option.noConfusion hmem.2
  · intro ht p hb
    exact mem_alignDates.mpr ⟨ht, hb⟩

/-! ### The transaction log -/

theorem buildRecords_map_date (amount : ℚ) (l : List (ℤ × ℚ)) (aS aI : ℚ) :
    (buildRecords amount l aS aI).map (fun r => r.date) = l.map Prod.fst := by
  induction l generalizing aS aI with
  | nil => rfl
  | cons hd tl ih =>
    obtain ⟨t, p⟩ := hd
    simp only [buildRecords, List.map_cons]
    rw [ih]

theorem mem_buildRecords {amount : ℚ} {l : List (ℤ × ℚ)} {aS aI : ℚ}
    {r : PurchaseRecord} (hr : r ∈ buildRecords amount l aS aI) :
    (r.date, r.price) ∈ l ∧ r.invested = amount ∧ r.shares = amount / r.price := by
  induction l generalizing aS aI with
  | nil => simp [buildRecords] at hr
  | cons hd tl ih =>
    obtain ⟨t, p⟩ := hd
    rw [buildRecords] at hr
    rcases List.mem_cons.mp hr with heq | htl
    · subst heq
      exact ⟨List.mem_cons_self _ _, rfl, rfl⟩
    · obtain ⟨h1, h2, h3⟩ := ih htl
      exact ⟨List.mem_cons_of_mem _ h1, h2, h3⟩

theorem buildRecords_chain_step (amount : ℚ) (l : List (ℤ × ℚ)) (aS aI : ℚ) :
    List.Chain'
      (fun r r2 => r2.totalShares = r.totalShares + r2.shares
        ∧ r2.totalInvested = r.totalInvested + r2.invested)
      (buildRecords amount l aS aI) := by
  induction l generalizing aS aI with
  | nil => exact List.chain'_nil
  | cons hd tl ih =>
    obtain ⟨t, p⟩ := hd
    rw [buildRecords]
    cases tl with
    | nil => simp [buildRecords]
    | cons hd2 tl2 =>
      obtain ⟨t2, p2⟩ := hd2
      rw [buildRecords, List.chain'_cons]
      refine ⟨⟨rfl, rfl⟩, ?_⟩
      have h := ih (aS + amount / p) (aI + amount)
      rw [buildRecords] at h
      exact h

theorem buildRecords_chain_mono {amount : ℚ} (hA : 0 ≤ amount) (l : List (ℤ × ℚ))
    (hp : ∀ x ∈ l, 0 < x.2) (aS aI : ℚ) :
    List.Chain'
      (fun r r2 => r.totalShares ≤ r2.totalShares
        ∧ r.totalInvested ≤ r2.totalInvested)
      (buildRecords amount l aS aI) := by
  induction l generalizing aS aI with
  | nil => exact List.chain'_nil
  | cons hd tl ih =>
    obtain ⟨t, p⟩ := hd
    rw [buildRecords]
    cases tl with
    | nil => simp [buildRecords]
    | cons hd2 tl2 =>
      obtain ⟨t2, p2⟩ := hd2
      rw [buildRecords, List.chain'_cons]
      have hp2 : 0 < p2 := hp (t2, p2) (List.mem_cons_of_mem _ (List.mem_cons_self _ _))
      have hsh : 0 ≤ amount / p2 := div_nonneg hA (le_of_lt hp2)
      refine ⟨⟨le_add_of_nonneg_right hsh, le_add_of_nonneg_right hA⟩, ?_⟩
      have h := ih (fun x hx => hp x (List.mem_cons_of_mem _ hx)) (aS + amount / p)
        (aI + amount)
      rw [buildRecords] at h
      exact h

theorem alignDates_price_pos {series : List (ℤ × ℚ)}
    (hp : ∀ dp ∈ series, 0 < dp.2) {dates : List ℤ} :
    ∀ x ∈ alignDates series dates, 0 < x.2 := by
  intro x hx
  obtain ⟨t, p⟩ := x
  obtain ⟨ht, hb⟩ := mem_alignDates.mp hx
  obtain ⟨dt, hdt⟩ := bfillLookup_mem hb
  exact hp (dt, p) hdt

theorem alignDates_map_fst (series : List (ℤ × ℚ)) (dates : List ℤ) :
    (alignDates series dates).map Prod.fst =
      dates.filter (fun t => (bfillLookup series t).isSome) := by
  induction dates with
  | nil => rfl
  | cons t tl ih =>
    rw [alignDates, List.filterMap_cons, List.filter_cons]
    rcases hb : bfillLookup series t with _ | p
    · simp only [Option.map_none', Option.isSome_none, Bool.false_eq_true, if_false]
      exact ih
    · simp only [Option.map_some', Option.isSome_some, if_true, List.map_cons]
      rw [← ih]
      rfl

/-! ### Rounding -/

theorem ratFloor_eq (q : ℚ) : Rat.floor q = ⌊q⌋ := by
  rw [Rat.floor_def', Rat.floor_def]

theorem abs_roundHalfEven_sub (q : ℚ) : |(roundHalfEven q : ℚ) - q| ≤ 1 / 2 := by
  have hf1 : ((⌊q⌋ : ℤ) : ℚ) ≤ q := Int.floor_le q
  have hf2 : q < (⌊q⌋ : ℤ) + 1 := Int.lt_floor_add_one q
  rw [roundHalfEven, ratFloor_eq]
  split_ifs with h1 h2 h3 <;> rw [abs_le] <;> push_cast <;> constructor <;> linarith

theorem abs_pyRound_sub (x : ℚ) (n : ℕ) : |pyRound x n - x| ≤ 1 / (2 * 10 ^ n) := by
  have h10 : (0 : ℚ) < 10 ^ n := by positivity
  have hkey : pyRound x n - x = ((roundHalfEven (x * 10 ^ n) : ℚ) - x * 10 ^ n) / 10 ^ n := by
    rw [pyRound]
    field_simp
    ring
  rw [hkey, abs_div, abs_of_pos h10]
  have hb := abs_roundHalfEven_sub (x * 10 ^ n)
  calc |(roundHalfEven (x * 10 ^ n) : ℚ) - x * 10 ^ n| / 10 ^ n
      ≤ (1 / 2) / 10 ^ n := by gcongr
    _ = 1 / (2 * 10 ^ n) := by ring

theorem roundHalfEven_intCast (k : ℤ) : roundHalfEven (k : ℚ) = k := by
  rw [roundHalfEven, ratFloor_eq]
  rw [Int.floor_intCast]
  rw [if_pos (by norm_num)]

theorem pyRound_intCast (k : ℤ) (n : ℕ) : pyRound (k : ℚ) n = (k * 10 ^ n : ℤ) / ((10 : ℚ) ^ n) := by
  rw [pyRound]
  congr 1
  rw [show ((k : ℚ) * 10 ^ n) = ((k * 10 ^ n : ℤ) : ℚ) by push_cast; ring,
    roundHalfEven_intCast]

theorem pyRound_zero (n : ℕ) : pyRound 0 n = 0 := by
  have h := pyRound_intCast 0 n
  rw [Int.cast_zero] at h
  rw [h]
  norm_num

/-! ### Unfolding the pipeline -/

theorem calculate_dca_ok (ticker : String) (amount : ℚ) (frequency : String)
    (sy sm sd endDate : ℤ) (data : List (ℤ × ℚ)) (recentClose : Option ℚ)
    (al : String) (hal : freq_map.lookup frequency = some al) (hne : data ≠ []) :
    calculate_dca ticker amount frequency sy sm sd endDate (some data) recentClose =
      .ok (summaryOf ticker frequency (recordsOf amount al sy sm sd endDate data)
        (currentPriceOf data recentClose),
        recordsOf amount al sy sm sd endDate data) := by
  cases data with
  | nil => exact absurd rfl hne
  | cons a l =>
    rw [calculate_dca, hal]

theorem calculate_dca_ok_inv {ticker : String} {amount : ℚ} {frequency : String}
    {sy sm sd endDate : ℤ} {download : Option (List (ℤ × ℚ))} {recentClose : Option ℚ}
    {s : Summary} {recs : List PurchaseRecord}
    (h : calculate_dca ticker amount frequency sy sm sd endDate download recentClose =
      .ok (s, recs)) :
    ∃ al data, freq_map.lookup frequency = some al ∧ download = some data ∧ data ≠ [] ∧
      recs = recordsOf amount al sy sm sd endDate data ∧
      s = summaryOf ticker frequency recs (currentPriceOf data recentClose) := by
  rw [calculate_dca] at h
  rcases hl : freq_map.lookup frequency with _ | al <;> rw [hl] at h
  · exact absurd h (by simp)
  · rcases download with _ | data
    · exact absurd h (by simp)
    · rcases data with _ | ⟨a, l⟩
      · exact absurd h (by simp)
      · simp only [Except.ok.injEq, Prod.mk.injEq] at h
        exact ⟨al, a :: l, rfl, rfl, by simp, h.2.symm, by rw [← h.1, ← h.2]⟩

/--
**C6**: for any frequency string outside
{daily, weekly, bi-weekly, monthly, quarterly, yearly} the calculation
fails with the invalid-frequency error, and the result does not depend on
the provider responses in any way (the check precedes the data fetch).
-/
theorem C6_invalid_frequency_before_fetch (ticker : String) (amount : ℚ)
    (frequency : String) (sy sm sd endDate : ℤ)
    (hf : frequency ∉ freq_map.map Prod.fst) :
    ∀ (download : Option (List (ℤ × ℚ))) (recentClose : Option ℚ),
      calculate_dca ticker amount frequency sy sm sd endDate download recentClose =
        .error .invalidFrequency := by
  intro download recentClose
  have hlook : freq_map.lookup frequency = none := by
    simp only [freq_map, List.map_cons, List.map_nil, List.mem_cons,
      List.not_mem_nil, or_false, not_or] at hf
    obtain ⟨h1, h2, h3, h4, h5, h6⟩ := hf
    have b1 : (frequency == "daily") = false := beq_eq_false_iff_ne.mpr h1
    have b2 : (frequency == "weekly") = false := beq_eq_false_iff_ne.mpr h2
    have b3 : (frequency == "bi-weekly") = false := beq_eq_false_iff_ne.mpr h3
    have b4 : (frequency == "monthly") = false := beq_eq_false_iff_ne.mpr h4
    have b5 : (frequency == "quarterly") = false := beq_eq_false_iff_ne.mpr h5
    have b6 : (frequency == "yearly") = false := beq_eq_false_iff_ne.mpr h6
    simp [freq_map, List.lookup, b1, b2, b3, b4, b5, b6]
  rw [calculate_dca, hlook]

/--
**C9**: the calculation is deterministic — two runs over identical
provider responses (price series and recent close) with identical
strategy parameters return identical summaries and purchase records.
-/
theorem C9_determinism (ticker : String) (amount : ℚ) (frequency : String)
    (sy sm sd endDate : ℤ) (download₁ download₂ : Option (List (ℤ × ℚ)))
    (recent₁ recent₂ : Option ℚ)
    (hdl : download₁ = download₂) (hrc : recent₁ = recent₂) :
    calculate_dca ticker amount frequency sy sm sd endDate download₁ recent₁ =
      calculate_dca ticker amount frequency sy sm sd endDate download₂ recent₂ := by
  rw [hdl, hrc]

/--
**C4** (counterexample): with a price series that ends before the start
date (so every ideal date fails to align), `calculate_dca` does not fail:
it returns a normal summary over an empty transaction log. There is no
distinct no-purchases-aligned error anywhere in the code.
-/
theorem C4_counterexample :
    calculate_dca "AAPL" 1000 "monthly" 2020 1 1 18300
        (some [(18200, 100)]) (some 50) =
      .ok (summaryOf "AAPL" "monthly" [] 50, []) := by
  have hrec : recordsOf 1000 "MS" 2020 1 1 18300 [(18200, 100)] = [] := by decide
  rw [calculate_dca_ok "AAPL" 1000 "monthly" 2020 1 1 18300 [(18200, 100)] (some 50)
    "MS" rfl (by simp), hrec]
  rfl

/--
**C4** (amended): when every ideal date fails to align to any trading day
the calculation does not fail with a distinct error; it returns a normal
summary whose total invested, total shares, average cost basis and ROI
are all 0, together with an empty purchase log.
-/
theorem C4_no_alignment_returns_zero_summary (ticker : String) (amount : ℚ)
    (frequency : String) (sy sm sd endDate : ℤ) (data : List (ℤ × ℚ))
    (recentClose : Option ℚ) (al : String)
    (hal : freq_map.lookup frequency = some al) (hne : data ≠ [])
    (halign : alignDates data (date_range al sy sm sd endDate) = []) :
    calculate_dca ticker amount frequency sy sm sd endDate (some data) recentClose =
      .ok (summaryOf ticker frequency [] (currentPriceOf data recentClose), []) ∧
    (summaryOf ticker frequency [] (currentPriceOf data recentClose)).totalInvested = 0 ∧
    (summaryOf ticker frequency [] (currentPriceOf data recentClose)).totalShares = 0 ∧
    (summaryOf ticker frequency [] (currentPriceOf data recentClose)).avgCostBasis = 0 ∧
    (summaryOf ticker frequency [] (currentPriceOf data recentClose)).roi = 0 := by
  have hrec : recordsOf amount al sy sm sd endDate data = [] := by
    rw [recordsOf, halign]
    rfl
  refine ⟨?_, ?_, ?_, ?_, ?_⟩
  · rw [calculate_dca_ok ticker amount frequency sy sm sd endDate data recentClose
      al hal hne, hrec]
  · simp only [summaryOf, List.map_nil, List.sum_nil]
    exact pyRound_zero 2
  · simp only [summaryOf, List.map_nil, List.sum_nil]
    exact pyRound_zero 4
  · simp only [summaryOf, List.map_nil, List.sum_nil]
    norm_num
  · simp only [summaryOf, List.map_nil, List.sum_nil]
    norm_num [pyRound_zero]

/--
**C5**: when zero purchase records result, the summary reports both the
average cost basis and the ROI as the value 0 — the guarded branches for
`total_shares = 0` and `total_invested = 0` are taken and no division is
attempted.
-/
theorem C5_zero_purchases_zero_ratios (ticker : String) (amount : ℚ)
    (frequency : String) (sy sm sd endDate : ℤ)
    (download : Option (List (ℤ × ℚ))) (recentClose : Option ℚ)
    (s : Summary) (recs : List PurchaseRecord)
    (h : calculate_dca ticker amount frequency sy sm sd endDate download recentClose =
      .ok (s, recs))
    (hrecs : recs = []) :
    s.avgCostBasis = 0 ∧ s.roi = 0 := by
  obtain ⟨al, data, hal, hdl, hne, hrec, hs⟩ := calculate_dca_ok_inv h
  rw [hrecs] at hs
  subst hs
  simp only [summaryOf, List.map_nil, List.sum_nil]
  norm_num [pyRound_zero]

/--
**C7**: in every purchase-record sequence produced, each running total of
shares equals the previous running total plus the shares purchased in
that record (and likewise for the running total invested); and — with
nonnegative amount and positive prices, as the provider contract
guarantees — both running-total sequences are non-decreasing.
-/
theorem C7_monotonic_accumulation (ticker : String) (amount : ℚ)
    (frequency : String) (sy sm sd endDate : ℤ)
    (download : Option (List (ℤ × ℚ))) (recentClose : Option ℚ)
    (s : Summary) (recs : List PurchaseRecord)
    (h : calculate_dca ticker amount frequency sy sm sd endDate download recentClose =
      .ok (s, recs)) :
    (∀ (i : ℕ) (hi : i + 1 < recs.length),
      (recs.get ⟨i + 1, hi⟩).totalShares
          = (recs.get ⟨i, Nat.lt_of_succ_lt hi⟩).totalShares
            + (recs.get ⟨i + 1, hi⟩).shares
        ∧ (recs.get ⟨i + 1, hi⟩).totalInvested
          = (recs.get ⟨i, Nat.lt_of_succ_lt hi⟩).totalInvested
            + (recs.get ⟨i + 1, hi⟩).invested)
    ∧ (0 ≤ amount → (∀ data ∈ download, ∀ dp ∈ data, 0 < dp.2) →
        List.Chain'
          (fun r r2 => r.totalShares ≤ r2.totalShares
            ∧ r.totalInvested ≤ r2.totalInvested) recs) := by
  obtain ⟨al, data, hal, hdl, hne, hrec, hs⟩ := calculate_dca_ok_inv h
  subst hrec
  constructor
  · intro i hi
    have hchain := buildRecords_chain_step amount
      (alignDates data (date_range al sy sm sd endDate)) 0 0
    rw [List.chain'_iff_get] at hchain
    exact hchain i (by
      simp only [recordsOf] at hi
      omega)
  · intro hA hp
    have hp2 : ∀ dp ∈ data, 0 < dp.2 := fun dp hdp => hp data hdl dp hdp
    exact buildRecords_chain_mono hA _ (alignDates_price_pos hp2) 0 0

/--
**C8**: the totals reported in the summary are the sums of the per-record
columns: total shares equals Σ shares purchased and total invested equals
Σ invested over all purchase records, exactly up to the display rounding
the source applies (4 decimal places for shares, 2 for money — i.e.
within 1/20000 resp. 1/200).
-/
theorem C8_conservation (ticker : String) (amount : ℚ) (frequency : String)
    (sy sm sd endDate : ℤ) (download : Option (List (ℤ × ℚ)))
    (recentClose : Option ℚ) (s : Summary) (recs : List PurchaseRecord)
    (h : calculate_dca ticker amount frequency sy sm sd endDate download recentClose =
      .ok (s, recs)) :
    |s.totalShares - ((recs.map fun r => r.shares).sum)| ≤ 1 / 20000
    ∧ |s.totalInvested - ((recs.map fun r => r.invested).sum)| ≤ 1 / 200 := by
  obtain ⟨al, data, hal, hdl, hne, hrec, hs⟩ := calculate_dca_ok_inv h
  subst hs
  constructor
  · refine le_trans ?_ (by norm_num : (1 : ℚ) / (2 * 10 ^ 4) ≤ 1 / 20000)
    simp only [summaryOf]
    exact abs_pyRound_sub _ 4
  · refine le_trans ?_ (by norm_num : (1 : ℚ) / (2 * 10 ^ 2) ≤ 1 / 200)
    simp only [summaryOf]
    exact abs_pyRound_sub _ 2

/--
**C10**: every purchase record in the returned log is dated with the
ideal calendar date itself — the record dates are exactly the ideal dates
that aligned to some trading day, and each record's price is the
backward-filled closing price at its (possibly non-trading) ideal date,
not a price relabelled to the trading day it came from.
-/
theorem C10_records_keep_ideal_dates (ticker : String) (amount : ℚ)
    (frequency : String) (sy sm sd endDate : ℤ) (data : List (ℤ × ℚ))
    (recentClose : Option ℚ) (s : Summary) (recs : List PurchaseRecord)
    (al : String) (hal : freq_map.lookup frequency = some al)
    (h : calculate_dca ticker amount frequency sy sm sd endDate (some data) recentClose =
      .ok (s, recs)) :
    recs.map (fun r => r.date) =
      (date_range al sy sm sd endDate).filter (fun t => (bfillLookup data t).isSome)
    ∧ ∀ r ∈ recs, bfillLookup data r.date = some r.price := by
  obtain ⟨al2, data2, hal2, hdl, hne, hrec, hs⟩ := calculate_dca_ok_inv h
  rw [hal] at hal2
  obtain rfl : al = al2 := Option.some_inj.mp hal2
  obtain rfl : data = data2 := Option.some_inj.mp hdl
  subst hrec
  constructor
  · rw [recordsOf, buildRecords_map_date, alignDates_map_fst]
  · intro r hr
    rw [recordsOf] at hr
    obtain ⟨hmem, hinv, hsh⟩ := mem_buildRecords hr
    exact (mem_alignDates.mp hmem).2

/-! ### Witnesses: the hypotheses of the theorems above are satisfiable
on concrete inputs (the two-point series of the design scenario, and a
series that ends before the start date). -/

theorem C1_backfill_alignment_witness :
    ([((18263 : ℤ), (100 : ℚ)), (18295, 110)].Pairwise (fun a b => a.1 < b.1))
    ∧ ((∀ p : ℚ, ((18262 : ℤ), p) ∈ [((18263 : ℤ), (100 : ℚ)), (18295, 110)] →
        bfillLookup [((18263 : ℤ), (100 : ℚ)), (18295, 110)] 18262 = some p)
      ∧ (∀ p : ℚ, bfillLookup [((18263 : ℤ), (100 : ℚ)), (18295, 110)] 18262 = some p →
          ∃ dt, (dt, p) ∈ [((18263 : ℤ), (100 : ℚ)), (18295, 110)] ∧ (18262 : ℤ) ≤ dt
            ∧ ∀ dp ∈ [((18263 : ℤ), (100 : ℚ)), (18295, 110)], (18262 : ℤ) ≤ dp.1 → dt ≤ dp.1)
      ∧ ((∀ dp ∈ [((18263 : ℤ), (100 : ℚ)), (18295, 110)], dp.1 < (18262 : ℤ)) →
          bfillLookup [((18263 : ℤ), (100 : ℚ)), (18295, 110)] 18262 = none)
      ∧ (bfillLookup [((18263 : ℤ), (100 : ℚ)), (18295, 110)] 18262 = none →
          ∀ p : ℚ, ((18262 : ℤ), p) ∉
            alignDates [((18263 : ℤ), (100 : ℚ)), (18295, 110)] [18262, 18293])
      ∧ ((18262 : ℤ) ∈ [(18262 : ℤ), 18293] → ∀ p : ℚ,
          bfillLookup [((18263 : ℤ), (100 : ℚ)), (18295, 110)] 18262 = some p →
          ((18262 : ℤ), p) ∈
            alignDates [((18263 : ℤ), (100 : ℚ)), (18295, 110)] [18262, 18293])) :=
  ⟨by decide,
    C1_backfill_alignment [((18263 : ℤ), (100 : ℚ)), (18295, 110)] (by decide)
      [18262, 18293] 18262⟩

theorem C3_period_start_anchoring_witness :
    ((1 : ℤ) ≤ 1 ∧ (1 : ℤ) ≤ 12 ∧ (1 : ℤ) ≤ 15 ∧ (15 : ℤ) ≤ daysInMonth 2020 1)
    ∧ (((∀ t ∈ dateRangeMS 2020 1 15 18500,
          (∃ i, t = monthStart i) ∧ daysFromCivil 2020 1 15 ≤ t ∧ t ≤ 18500)
        ∧ List.Chain' (fun a b => ∃ i, a = monthStart i ∧ b = monthStart (i + 1))
            (dateRangeMS 2020 1 15 18500)
        ∧ ∀ h ∈ (dateRangeMS 2020 1 15 18500).head?,
            h = monthStart (startMonthIdx 2020 1 15)
              ∧ ((15 : ℤ) = 1 → h = daysFromCivil 2020 1 15)
              ∧ ((1 : ℤ) < 15 → daysFromCivil 2020 1 15 < h))
      ∧ ((∀ t ∈ dateRangeQS 2020 1 15 18500,
          (∃ i, t = monthStart (3 * i)) ∧ daysFromCivil 2020 1 15 ≤ t ∧ t ≤ 18500)
        ∧ List.Chain'
            (fun a b => ∃ i, a = monthStart (3 * i) ∧ b = monthStart (3 * i + 3))
            (dateRangeQS 2020 1 15 18500)
        ∧ ∀ h ∈ (dateRangeQS 2020 1 15 18500).head?,
            h = monthStart (startQuarterIdx 2020 1 15))
      ∧ ((∀ t ∈ dateRangeYS 2020 1 15 18500,
          (∃ i, t = monthStart (12 * i)) ∧ daysFromCivil 2020 1 15 ≤ t ∧ t ≤ 18500)
        ∧ List.Chain'
            (fun a b => ∃ i, a = monthStart (12 * i) ∧ b = monthStart (12 * i + 12))
            (dateRangeYS 2020 1 15 18500)
        ∧ ∀ h ∈ (dateRangeYS 2020 1 15 18500).head?,
            h = monthStart (startYearIdx 2020 1 15))) :=
  ⟨⟨by decide, by decide, by decide, by decide⟩,
    C3_period_start_anchoring 2020 1 15 18500 (by decide) (by decide) (by decide)
      (by decide)⟩

theorem C4_no_alignment_returns_zero_summary_witness :
    (freq_map.lookup "monthly" = some "MS"
      ∧ [((18200 : ℤ), (100 : ℚ))] ≠ []
      ∧ alignDates [((18200 : ℤ), (100 : ℚ))] (date_range "MS" 2020 1 1 18300) = [])
    ∧ (calculate_dca "AAPL" 1000 "monthly" 2020 1 1 18300
          (some [(18200, 100)]) (some 50) =
        .ok (summaryOf "AAPL" "monthly" []
            (currentPriceOf [(18200, 100)] (some 50)), []) ∧
      (summaryOf "AAPL" "monthly" []
        (currentPriceOf [(18200, 100)] (some 50))).totalInvested = 0 ∧
      (summaryOf "AAPL" "monthly" []
        (currentPriceOf [(18200, 100)] (some 50))).totalShares = 0 ∧
      (summaryOf "AAPL" "monthly" []
        (currentPriceOf [(18200, 100)] (some 50))).avgCostBasis = 0 ∧
      (summaryOf "AAPL" "monthly" []
        (currentPriceOf [(18200, 100)] (some 50))).roi = 0) :=
  ⟨⟨rfl, by simp, by decide⟩,
    C4_no_alignment_returns_zero_summary "AAPL" 1000 "monthly" 2020 1 1 18300
      [(18200, 100)] (some 50) "MS" rfl (by simp) (by decide)⟩

theorem C5_zero_purchases_zero_ratios_witness :
    (calculate_dca "AAPL" 1000 "monthly" 2020 1 1 18300
        (some [(18200, 100)]) (some 50) =
      .ok (summaryOf "AAPL" "monthly"
          (recordsOf 1000 "MS" 2020 1 1 18300 [(18200, 100)])
          (currentPriceOf [(18200, 100)] (some 50)),
        recordsOf 1000 "MS" 2020 1 1 18300 [(18200, 100)]))
    ∧ recordsOf 1000 "MS" 2020 1 1 18300 [(18200, 100)] = []
    ∧ ((summaryOf "AAPL" "monthly"
          (recordsOf 1000 "MS" 2020 1 1 18300 [(18200, 100)])
          (currentPriceOf [(18200, 100)] (some 50))).avgCostBasis = 0
      ∧ (summaryOf "AAPL" "monthly"
          (recordsOf 1000 "MS" 2020 1 1 18300 [(18200, 100)])
          (currentPriceOf [(18200, 100)] (some 50))).roi = 0) :=
  ⟨calculate_dca_ok "AAPL" 1000 "monthly" 2020 1 1 18300 [(18200, 100)] (some 50)
      "MS" rfl (by simp),
    by decide,
    C5_zero_purchases_zero_ratios "AAPL" 1000 "monthly" 2020 1 1 18300
      (some [(18200, 100)]) (some 50) _ _
      (calculate_dca_ok "AAPL" 1000 "monthly" 2020 1 1 18300 [(18200, 100)] (some 50)
        "MS" rfl (by simp))
      (by decide)⟩

theorem C6_invalid_frequency_before_fetch_witness :
    ("fortnightly" ∉ freq_map.map Prod.fst)
    ∧ calculate_dca "AAPL" 1000 "fortnightly" 2020 1 1 18300
        (some [(18263, 100)]) (some 50) = .error .invalidFrequency :=
  ⟨by decide,
    C6_invalid_frequency_before_fetch "AAPL" 1000 "fortnightly" 2020 1 1 18300
      (by decide) (some [(18263, 100)]) (some 50)⟩

theorem C7_monotonic_accumulation_witness :
    (calculate_dca "FTEC" 1000 "monthly" 2020 1 1 18300
        (some [(18263, 100), (18295, 110)]) (some 120) =
      .ok (summaryOf "FTEC" "monthly"
          (recordsOf 1000 "MS" 2020 1 1 18300 [(18263, 100), (18295, 110)])
          (currentPriceOf [(18263, 100), (18295, 110)] (some 120)),
        recordsOf 1000 "MS" 2020 1 1 18300 [(18263, 100), (18295, 110)]))
    ∧ ((∀ (i : ℕ)
        (hi : i + 1 <
          (recordsOf 1000 "MS" 2020 1 1 18300 [(18263, 100), (18295, 110)]).length),
        ((recordsOf 1000 "MS" 2020 1 1 18300
            [(18263, 100), (18295, 110)]).get ⟨i + 1, hi⟩).totalShares
            = ((recordsOf 1000 "MS" 2020 1 1 18300
                [(18263, 100), (18295, 110)]).get
                  ⟨i, Nat.lt_of_succ_lt hi⟩).totalShares
              + ((recordsOf 1000 "MS" 2020 1 1 18300
                  [(18263, 100), (18295, 110)]).get ⟨i + 1, hi⟩).shares
          ∧ ((recordsOf 1000 "MS" 2020 1 1 18300
              [(18263, 100), (18295, 110)]).get ⟨i + 1, hi⟩).totalInvested
            = ((recordsOf 1000 "MS" 2020 1 1 18300
                [(18263, 100), (18295, 110)]).get
                  ⟨i, Nat.lt_of_succ_lt hi⟩).totalInvested
              + ((recordsOf 1000 "MS" 2020 1 1 18300
                  [(18263, 100), (18295, 110)]).get ⟨i + 1, hi⟩).invested)
      ∧ ((0 : ℚ) ≤ 1000 →
          (∀ data ∈ some [((18263 : ℤ), (100 : ℚ)), (18295, 110)],
            ∀ dp ∈ data, 0 < dp.2) →
          List.Chain'
            (fun r r2 => r.totalShares ≤ r2.totalShares
              ∧ r.totalInvested ≤ r2.totalInvested)
            (recordsOf 1000 "MS" 2020 1 1 18300 [(18263, 100), (18295, 110)]))) :=
  ⟨calculate_dca_ok "FTEC" 1000 "monthly" 2020 1 1 18300
      [(18263, 100), (18295, 110)] (some 120) "MS" rfl (by simp),
    C7_monotonic_accumulation "FTEC" 1000 "monthly" 2020 1 1 18300
      (some [(18263, 100), (18295, 110)]) (some 120) _ _
      (calculate_dca_ok "FTEC" 1000 "monthly" 2020 1 1 18300
        [(18263, 100), (18295, 110)] (some 120) "MS" rfl (by simp))⟩

theorem C8_conservation_witness :
    (calculate_dca "FTEC" 1000 "monthly" 2020 1 1 18300
        (some [(18263, 100), (18295, 110)]) (some 120) =
      .ok (summaryOf "FTEC" "monthly"
          (recordsOf 1000 "MS" 2020 1 1 18300 [(18263, 100), (18295, 110)])
          (currentPriceOf [(18263, 100), (18295, 110)] (some 120)),
        recordsOf 1000 "MS" 2020 1 1 18300 [(18263, 100), (18295, 110)]))
    ∧ (|(summaryOf "FTEC" "monthly"
          (recordsOf 1000 "MS" 2020 1 1 18300 [(18263, 100), (18295, 110)])
          (currentPriceOf [(18263, 100), (18295, 110)] (some 120))).totalShares
        - (((recordsOf 1000 "MS" 2020 1 1 18300
            [(18263, 100), (18295, 110)]).map fun r => r.shares).sum)| ≤ 1 / 20000
      ∧ |(summaryOf "FTEC" "monthly"
          (recordsOf 1000 "MS" 2020 1 1 18300 [(18263, 100), (18295, 110)])
          (currentPriceOf [(18263, 100), (18295, 110)] (some 120))).totalInvested
        - (((recordsOf 1000 "MS" 2020 1 1 18300
            [(18263, 100), (18295, 110)]).map fun r => r.invested).sum)| ≤ 1 / 200) :=
  ⟨calculate_dca_ok "FTEC" 1000 "monthly" 2020 1 1 18300
      [(18263, 100), (18295, 110)] (some 120) "MS" rfl (by simp),
    C8_conservation "FTEC" 1000 "monthly" 2020 1 1 18300
      (some [(18263, 100), (18295, 110)]) (some 120) _ _
      (calculate_dca_ok "FTEC" 1000 "monthly" 2020 1 1 18300
        [(18263, 100), (18295, 110)] (some 120) "MS" rfl (by simp))⟩

theorem C9_determinism_witness :
    ((some [((18263 : ℤ), (100 : ℚ))] : Option (List (ℤ × ℚ))) = some [(18263, 100)]
      ∧ (some (120 : ℚ) : Option ℚ) = some 120)
    ∧ calculate_dca "FTEC" 1000 "monthly" 2020 1 1 18300
        (some [(18263, 100)]) (some 120) =
      calculate_dca "FTEC" 1000 "monthly" 2020 1 1 18300
        (some [(18263, 100)]) (some 120) :=
  ⟨⟨rfl, rfl⟩,
    C9_determinism "FTEC" 1000 "monthly" 2020 1 1 18300
      (some [(18263, 100)]) (some [(18263, 100)]) (some 120) (some 120) rfl rfl⟩

theorem C10_records_keep_ideal_dates_witness :
    (freq_map.lookup "monthly" = some "MS"
      ∧ calculate_dca "FTEC" 1000 "monthly" 2020 1 1 18300
          (some [(18263, 100), (18295, 110)]) (some 120) =
        .ok (summaryOf "FTEC" "monthly"
            (recordsOf 1000 "MS" 2020 1 1 18300 [(18263, 100), (18295, 110)])
            (currentPriceOf [(18263, 100), (18295, 110)] (some 120)),
          recordsOf 1000 "MS" 2020 1 1 18300 [(18263, 100), (18295, 110)]))
    ∧ ((recordsOf 1000 "MS" 2020 1 1 18300
          [(18263, 100), (18295, 110)]).map (fun r => r.date) =
        (date_range "MS" 2020 1 1 18300).filter
          (fun t => (bfillLookup [(18263, 100), (18295, 110)] t).isSome)
      ∧ ∀ r ∈ recordsOf 1000 "MS" 2020 1 1 18300 [(18263, 100), (18295, 110)],
          bfillLookup [(18263, 100), (18295, 110)] r.date = some r.price) :=
  ⟨⟨rfl,
      calculate_dca_ok "FTEC" 1000 "monthly" 2020 1 1 18300
        [(18263, 100), (18295, 110)] (some 120) "MS" rfl (by simp)⟩,
    C10_records_keep_ideal_dates "FTEC" 1000 "monthly" 2020 1 1 18300
      [(18263, 100), (18295, 110)] (some 120) _ _ "MS" rfl
      (calculate_dca_ok "FTEC" 1000 "monthly" 2020 1 1 18300
        [(18263, 100), (18295, 110)] (some 120) "MS" rfl (by simp))⟩

end DCA
